import Mathlib

/-!
# Verification of the etk core assembler

This file gives a shallow embedding of the `etk-asm` core assembler
(`src/etk-asm/src/ops.rs` and `src/etk-asm/src/asm.rs`) and proves the spec's
claims about it.

* The opcode table (`Specifier`, `toU8`, `LUT`, `fromU8`, `extraLen`, `push`,
  `pushFor`) and the old-style unsized-push concretization are translated from
  `ops.rs`.
* The assembler state machine (`Assembler`, `push`, `take`, `finish`,
  macro expansion) is translated from `asm.rs`.
* The expression / immediate layer (`Expression`, evaluation, the
  context-taking `concretize`) lives in a module that is not part of the
  provided sources; those definitions are modelled from the spec and are
  marked as such in their doc comments.

Machine integers (`u8`, `usize`) are modelled as `Nat`; byte strings as
`List Nat` with entries below 256.  Rust panics (`todo!`, `unreachable!`,
failing `assert!`s) are modelled as the `none` value of an outer `Option`.
-/

set_option autoImplicit false

namespace Etk

/-! ## Small helpers: association lists and big-endian bytes -/

/-- Lookup in an association list (models `HashMap::get`). -/
def alookup {α : Type} (m : List (String × α)) (k : String) : Option α :=
  match m with
  | [] => none
  | (k', v) :: rest => if k' = k then some v else alookup rest k

/-- Insert into an association list, replacing an existing binding
(models `HashMap::insert`). -/
def ainsert {α : Type} (m : List (String × α)) (k : String) (v : α) :
    List (String × α) :=
  match m with
  | [] => [(k, v)]
  | (k', v') :: rest =>
      if k' = k then (k, v) :: rest else (k', v') :: ainsert rest k v

/-- The numeric value of a big-endian byte string. -/
def beVal (bytes : List Nat) : Nat :=
  bytes.foldl (fun acc b => 256 * acc + b) 0

/-- The `n`-byte big-endian encoding of `v` (left-padded with zeros). -/
def beBytes (n : Nat) (v : Nat) : List Nat :=
  (List.range n).map (fun i => v / 256 ^ (n - 1 - i) % 256)

/-- Maximum of a list of naturals, `0` for the empty list. -/
def listMax (l : List Nat) : Nat :=
  l.foldr max 0

/-- Digit count of `v` in base `b`, with an explicit recursion bound `f ≥ v`
so the definition is structural and reduces in the kernel. -/
def digitLenAux (b : Nat) : Nat → Nat → Nat
  | 0, _ => 0
  | f + 1, v => if v = 0 then 0 else digitLenAux b f (v / b) + 1

/-- The bit length of `v`: `0` for `0`, otherwise `⌊log2 v⌋ + 1`. -/
def bitLen (v : Nat) : Nat :=
  digitLenAux 2 v v

/-- The byte length of `v`: the minimal `n` with `v < 256 ^ n`. -/
def byteLen (v : Nat) : Nat :=
  digitLenAux 256 v v

/-! ## The opcode table (`ops.rs`, macro `ops!` and `impl Op<Spec>`)

The `ops!` macro invocation at `ops.rs:533` declares 256 variants in byte
order; the `Specifier` inductive below lists them in exactly that order. -/

inductive Specifier where
  | Stop
  | Add
  | Mul
  | Sub
  | Div
  | SDiv
  | Mod
  | SMod
  | AddMod
  | MulMod
  | Exp
  | SignExtend
  | Invalid0c
  | Invalid0d
  | Invalid0e
  | Invalid0f
  | Lt
  | Gt
  | SLt
  | SGt
  | Eq
  | IsZero
  | And
  | Or
  | Xor
  | Not
  | Byte
  | Shl
  | Shr
  | Sar
  | Invalid1e
  | Invalid1f
  | Keccak256
  | Invalid21
  | Invalid22
  | Invalid23
  | Invalid24
  | Invalid25
  | Invalid26
  | Invalid27
  | Invalid28
  | Invalid29
  | Invalid2a
  | Invalid2b
  | Invalid2c
  | Invalid2d
  | Invalid2e
  | Invalid2f
  | Address
  | Balance
  | Origin
  | Caller
  | CallValue
  | CallDataLoad
  | CallDataSize
  | CallDataCopy
  | CodeSize
  | CodeCopy
  | GasPrice
  | ExtCodeSize
  | ExtCodeCopy
  | ReturnDataSize
  | ReturnDataCopy
  | ExtCodeHash
  | BlockHash
  | Coinbase
  | Timestamp
  | Number
  | Difficulty
  | GasLimit
  | ChainId
  | Invalid47
  | Invalid48
  | Invalid49
  | Invalid4a
  | Invalid4b
  | Invalid4c
  | Invalid4d
  | Invalid4e
  | Invalid4f
  | Pop
  | MLoad
  | MStore
  | MStore8
  | SLoad
  | SStore
  | Jump
  | JumpI
  | GetPc
  | MSize
  | Gas
  | JumpDest
  | Invalid5c
  | Invalid5d
  | Invalid5e
  | Invalid5f
  | Push1
  | Push2
  | Push3
  | Push4
  | Push5
  | Push6
  | Push7
  | Push8
  | Push9
  | Push10
  | Push11
  | Push12
  | Push13
  | Push14
  | Push15
  | Push16
  | Push17
  | Push18
  | Push19
  | Push20
  | Push21
  | Push22
  | Push23
  | Push24
  | Push25
  | Push26
  | Push27
  | Push28
  | Push29
  | Push30
  | Push31
  | Push32
  | Dup1
  | Dup2
  | Dup3
  | Dup4
  | Dup5
  | Dup6
  | Dup7
  | Dup8
  | Dup9
  | Dup10
  | Dup11
  | Dup12
  | Dup13
  | Dup14
  | Dup15
  | Dup16
  | Swap1
  | Swap2
  | Swap3
  | Swap4
  | Swap5
  | Swap6
  | Swap7
  | Swap8
  | Swap9
  | Swap10
  | Swap11
  | Swap12
  | Swap13
  | Swap14
  | Swap15
  | Swap16
  | Log0
  | Log1
  | Log2
  | Log3
  | Log4
  | InvalidA5
  | InvalidA6
  | InvalidA7
  | InvalidA8
  | InvalidA9
  | InvalidAa
  | InvalidAb
  | InvalidAc
  | InvalidAd
  | InvalidAe
  | InvalidAf
  | JumpTo
  | JumpIf
  | JumpSub
  | InvalidB3
  | JumpSubV
  | BeginSub
  | BeginData
  | InvalidB7
  | ReturnSub
  | PutLocal
  | GetLocal
  | InvalidBb
  | InvalidBc
  | InvalidBd
  | InvalidBe
  | InvalidBf
  | InvalidC0
  | InvalidC1
  | InvalidC2
  | InvalidC3
  | InvalidC4
  | InvalidC5
  | InvalidC6
  | InvalidC7
  | InvalidC8
  | InvalidC9
  | InvalidCa
  | InvalidCb
  | InvalidCc
  | InvalidCd
  | InvalidCe
  | InvalidCf
  | InvalidD0
  | InvalidD1
  | InvalidD2
  | InvalidD3
  | InvalidD4
  | InvalidD5
  | InvalidD6
  | InvalidD7
  | InvalidD8
  | InvalidD9
  | InvalidDa
  | InvalidDb
  | InvalidDc
  | InvalidDd
  | InvalidDe
  | InvalidDf
  | InvalidE0
  | SLoadBytes
  | SStoreBytes
  | SSize
  | InvalidE4
  | InvalidE5
  | InvalidE6
  | InvalidE7
  | InvalidE8
  | InvalidE9
  | InvalidEa
  | InvalidEb
  | InvalidEc
  | InvalidEd
  | InvalidEe
  | InvalidEf
  | Create
  | Call
  | CallCode
  | Return
  | DelegateCall
  | Create2
  | InvalidF6
  | InvalidF7
  | InvalidF8
  | InvalidF9
  | StaticCall
  | InvalidFb
  | TxExecGas
  | Revert
  | Invalid
  | SelfDestruct

/-- From the source: `to_u8!` in the source expands to a chain of `matches!` tests that returns the
declaration index of the variant, so `to_u8` is the position of the specifier in
the `ops!` listing. -/
def Specifier.toU8 : Specifier → Nat
  | .Stop => 0
  | .Add => 1
  | .Mul => 2
  | .Sub => 3
  | .Div => 4
  | .SDiv => 5
  | .Mod => 6
  | .SMod => 7
  | .AddMod => 8
  | .MulMod => 9
  | .Exp => 10
  | .SignExtend => 11
  | .Invalid0c => 12
  | .Invalid0d => 13
  | .Invalid0e => 14
  | .Invalid0f => 15
  | .Lt => 16
  | .Gt => 17
  | .SLt => 18
  | .SGt => 19
  | .Eq => 20
  | .IsZero => 21
  | .And => 22
  | .Or => 23
  | .Xor => 24
  | .Not => 25
  | .Byte => 26
  | .Shl => 27
  | .Shr => 28
  | .Sar => 29
  | .Invalid1e => 30
  | .Invalid1f => 31
  | .Keccak256 => 32
  | .Invalid21 => 33
  | .Invalid22 => 34
  | .Invalid23 => 35
  | .Invalid24 => 36
  | .Invalid25 => 37
  | .Invalid26 => 38
  | .Invalid27 => 39
  | .Invalid28 => 40
  | .Invalid29 => 41
  | .Invalid2a => 42
  | .Invalid2b => 43
  | .Invalid2c => 44
  | .Invalid2d => 45
  | .Invalid2e => 46
  | .Invalid2f => 47
  | .Address => 48
  | .Balance => 49
  | .Origin => 50
  | .Caller => 51
  | .CallValue => 52
  | .CallDataLoad => 53
  | .CallDataSize => 54
  | .CallDataCopy => 55
  | .CodeSize => 56
  | .CodeCopy => 57
  | .GasPrice => 58
  | .ExtCodeSize => 59
  | .ExtCodeCopy => 60
  | .ReturnDataSize => 61
  | .ReturnDataCopy => 62
  | .ExtCodeHash => 63
  | .BlockHash => 64
  | .Coinbase => 65
  | .Timestamp => 66
  | .Number => 67
  | .Difficulty => 68
  | .GasLimit => 69
  | .ChainId => 70
  | .Invalid47 => 71
  | .Invalid48 => 72
  | .Invalid49 => 73
  | .Invalid4a => 74
  | .Invalid4b => 75
  | .Invalid4c => 76
  | .Invalid4d => 77
  | .Invalid4e => 78
  | .Invalid4f => 79
  | .Pop => 80
  | .MLoad => 81
  | .MStore => 82
  | .MStore8 => 83
  | .SLoad => 84
  | .SStore => 85
  | .Jump => 86
  | .JumpI => 87
  | .GetPc => 88
  | .MSize => 89
  | .Gas => 90
  | .JumpDest => 91
  | .Invalid5c => 92
  | .Invalid5d => 93
  | .Invalid5e => 94
  | .Invalid5f => 95
  | .Push1 => 96
  | .Push2 => 97
  | .Push3 => 98
  | .Push4 => 99
  | .Push5 => 100
  | .Push6 => 101
  | .Push7 => 102
  | .Push8 => 103
  | .Push9 => 104
  | .Push10 => 105
  | .Push11 => 106
  | .Push12 => 107
  | .Push13 => 108
  | .Push14 => 109
  | .Push15 => 110
  | .Push16 => 111
  | .Push17 => 112
  | .Push18 => 113
  | .Push19 => 114
  | .Push20 => 115
  | .Push21 => 116
  | .Push22 => 117
  | .Push23 => 118
  | .Push24 => 119
  | .Push25 => 120
  | .Push26 => 121
  | .Push27 => 122
  | .Push28 => 123
  | .Push29 => 124
  | .Push30 => 125
  | .Push31 => 126
  | .Push32 => 127
  | .Dup1 => 128
  | .Dup2 => 129
  | .Dup3 => 130
  | .Dup4 => 131
  | .Dup5 => 132
  | .Dup6 => 133
  | .Dup7 => 134
  | .Dup8 => 135
  | .Dup9 => 136
  | .Dup10 => 137
  | .Dup11 => 138
  | .Dup12 => 139
  | .Dup13 => 140
  | .Dup14 => 141
  | .Dup15 => 142
  | .Dup16 => 143
  | .Swap1 => 144
  | .Swap2 => 145
  | .Swap3 => 146
  | .Swap4 => 147
  | .Swap5 => 148
  | .Swap6 => 149
  | .Swap7 => 150
  | .Swap8 => 151
  | .Swap9 => 152
  | .Swap10 => 153
  | .Swap11 => 154
  | .Swap12 => 155
  | .Swap13 => 156
  | .Swap14 => 157
  | .Swap15 => 158
  | .Swap16 => 159
  | .Log0 => 160
  | .Log1 => 161
  | .Log2 => 162
  | .Log3 => 163
  | .Log4 => 164
  | .InvalidA5 => 165
  | .InvalidA6 => 166
  | .InvalidA7 => 167
  | .InvalidA8 => 168
  | .InvalidA9 => 169
  | .InvalidAa => 170
  | .InvalidAb => 171
  | .InvalidAc => 172
  | .InvalidAd => 173
  | .InvalidAe => 174
  | .InvalidAf => 175
  | .JumpTo => 176
  | .JumpIf => 177
  | .JumpSub => 178
  | .InvalidB3 => 179
  | .JumpSubV => 180
  | .BeginSub => 181
  | .BeginData => 182
  | .InvalidB7 => 183
  | .ReturnSub => 184
  | .PutLocal => 185
  | .GetLocal => 186
  | .InvalidBb => 187
  | .InvalidBc => 188
  | .InvalidBd => 189
  | .InvalidBe => 190
  | .InvalidBf => 191
  | .InvalidC0 => 192
  | .InvalidC1 => 193
  | .InvalidC2 => 194
  | .InvalidC3 => 195
  | .InvalidC4 => 196
  | .InvalidC5 => 197
  | .InvalidC6 => 198
  | .InvalidC7 => 199
  | .InvalidC8 => 200
  | .InvalidC9 => 201
  | .InvalidCa => 202
  | .InvalidCb => 203
  | .InvalidCc => 204
  | .InvalidCd => 205
  | .InvalidCe => 206
  | .InvalidCf => 207
  | .InvalidD0 => 208
  | .InvalidD1 => 209
  | .InvalidD2 => 210
  | .InvalidD3 => 211
  | .InvalidD4 => 212
  | .InvalidD5 => 213
  | .InvalidD6 => 214
  | .InvalidD7 => 215
  | .InvalidD8 => 216
  | .InvalidD9 => 217
  | .InvalidDa => 218
  | .InvalidDb => 219
  | .InvalidDc => 220
  | .InvalidDd => 221
  | .InvalidDe => 222
  | .InvalidDf => 223
  | .InvalidE0 => 224
  | .SLoadBytes => 225
  | .SStoreBytes => 226
  | .SSize => 227
  | .InvalidE4 => 228
  | .InvalidE5 => 229
  | .InvalidE6 => 230
  | .InvalidE7 => 231
  | .InvalidE8 => 232
  | .InvalidE9 => 233
  | .InvalidEa => 234
  | .InvalidEb => 235
  | .InvalidEc => 236
  | .InvalidEd => 237
  | .InvalidEe => 238
  | .InvalidEf => 239
  | .Create => 240
  | .Call => 241
  | .CallCode => 242
  | .Return => 243
  | .DelegateCall => 244
  | .Create2 => 245
  | .InvalidF6 => 246
  | .InvalidF7 => 247
  | .InvalidF8 => 248
  | .InvalidF9 => 249
  | .StaticCall => 250
  | .InvalidFb => 251
  | .TxExecGas => 252
  | .Revert => 253
  | .Invalid => 254
  | .SelfDestruct => 255

/-- From the source: `Op::<Spec>::LUT`: the compile-time 256-entry table listing every specifier
in declaration order (split into rows of 16 to keep elaboration cheap). -/
def Specifier.LUT : List Specifier :=
  [.Stop, .Add, .Mul, .Sub, .Div, .SDiv, .Mod, .SMod, .AddMod, .MulMod, .Exp, .SignExtend, .Invalid0c, .Invalid0d, .Invalid0e, .Invalid0f] ++
  [.Lt, .Gt, .SLt, .SGt, .Eq, .IsZero, .And, .Or, .Xor, .Not, .Byte, .Shl, .Shr, .Sar, .Invalid1e, .Invalid1f] ++
  [.Keccak256, .Invalid21, .Invalid22, .Invalid23, .Invalid24, .Invalid25, .Invalid26, .Invalid27, .Invalid28, .Invalid29, .Invalid2a, .Invalid2b, .Invalid2c, .Invalid2d, .Invalid2e, .Invalid2f] ++
  [.Address, .Balance, .Origin, .Caller, .CallValue, .CallDataLoad, .CallDataSize, .CallDataCopy, .CodeSize, .CodeCopy, .GasPrice, .ExtCodeSize, .ExtCodeCopy, .ReturnDataSize, .ReturnDataCopy, .ExtCodeHash] ++
  [.BlockHash, .Coinbase, .Timestamp, .Number, .Difficulty, .GasLimit, .ChainId, .Invalid47, .Invalid48, .Invalid49, .Invalid4a, .Invalid4b, .Invalid4c, .Invalid4d, .Invalid4e, .Invalid4f] ++
  [.Pop, .MLoad, .MStore, .MStore8, .SLoad, .SStore, .Jump, .JumpI, .GetPc, .MSize, .Gas, .JumpDest, .Invalid5c, .Invalid5d, .Invalid5e, .Invalid5f] ++
  [.Push1, .Push2, .Push3, .Push4, .Push5, .Push6, .Push7, .Push8, .Push9, .Push10, .Push11, .Push12, .Push13, .Push14, .Push15, .Push16] ++
  [.Push17, .Push18, .Push19, .Push20, .Push21, .Push22, .Push23, .Push24, .Push25, .Push26, .Push27, .Push28, .Push29, .Push30, .Push31, .Push32] ++
  [.Dup1, .Dup2, .Dup3, .Dup4, .Dup5, .Dup6, .Dup7, .Dup8, .Dup9, .Dup10, .Dup11, .Dup12, .Dup13, .Dup14, .Dup15, .Dup16] ++
  [.Swap1, .Swap2, .Swap3, .Swap4, .Swap5, .Swap6, .Swap7, .Swap8, .Swap9, .Swap10, .Swap11, .Swap12, .Swap13, .Swap14, .Swap15, .Swap16] ++
  [.Log0, .Log1, .Log2, .Log3, .Log4, .InvalidA5, .InvalidA6, .InvalidA7, .InvalidA8, .InvalidA9, .InvalidAa, .InvalidAb, .InvalidAc, .InvalidAd, .InvalidAe, .InvalidAf] ++
  [.JumpTo, .JumpIf, .JumpSub, .InvalidB3, .JumpSubV, .BeginSub, .BeginData, .InvalidB7, .ReturnSub, .PutLocal, .GetLocal, .InvalidBb, .InvalidBc, .InvalidBd, .InvalidBe, .InvalidBf] ++
  [.InvalidC0, .InvalidC1, .InvalidC2, .InvalidC3, .InvalidC4, .InvalidC5, .InvalidC6, .InvalidC7, .InvalidC8, .InvalidC9, .InvalidCa, .InvalidCb, .InvalidCc, .InvalidCd, .InvalidCe, .InvalidCf] ++
  [.InvalidD0, .InvalidD1, .InvalidD2, .InvalidD3, .InvalidD4, .InvalidD5, .InvalidD6, .InvalidD7, .InvalidD8, .InvalidD9, .InvalidDa, .InvalidDb, .InvalidDc, .InvalidDd, .InvalidDe, .InvalidDf] ++
  [.InvalidE0, .SLoadBytes, .SStoreBytes, .SSize, .InvalidE4, .InvalidE5, .InvalidE6, .InvalidE7, .InvalidE8, .InvalidE9, .InvalidEa, .InvalidEb, .InvalidEc, .InvalidEd, .InvalidEe, .InvalidEf] ++
  [.Create, .Call, .CallCode, .Return, .DelegateCall, .Create2, .InvalidF6, .InvalidF7, .InvalidF8, .InvalidF9, .StaticCall, .InvalidFb, .TxExecGas, .Revert, .Invalid, .SelfDestruct]

/-- From the source: `From<u8> for Op<Spec>`: `LUT[v as usize]`.  Total on `u8`; the fallback is
never reached for inputs below 256. -/
def Specifier.fromU8 (b : Nat) : Specifier :=
  List.getD Specifier.LUT b Specifier.Stop

/-- From the source: `extra_len`: the immediate length of a specifier, nonzero exactly for the
push specifiers (`PushN` carries an `N`-byte immediate). -/
def Specifier.extraLen : Specifier → Nat
  | .Push1 => 1
  | .Push2 => 2
  | .Push3 => 3
  | .Push4 => 4
  | .Push5 => 5
  | .Push6 => 6
  | .Push7 => 7
  | .Push8 => 8
  | .Push9 => 9
  | .Push10 => 10
  | .Push11 => 11
  | .Push12 => 12
  | .Push13 => 13
  | .Push14 => 14
  | .Push15 => 15
  | .Push16 => 16
  | .Push17 => 17
  | .Push18 => 18
  | .Push19 => 19
  | .Push20 => 20
  | .Push21 => 21
  | .Push22 => 22
  | .Push23 => 23
  | .Push24 => 24
  | .Push25 => 25
  | .Push26 => 26
  | .Push27 => 27
  | .Push28 => 28
  | .Push29 => 29
  | .Push30 => 30
  | .Push31 => 31
  | .Push32 => 32
  | _ => 0

/-- From the source: `Op::<Spec>::push`: the push specifier with a `bytes`-byte immediate
(`0` and `1` both give `Push1`; widths past 32 give `None`). -/
def Specifier.push (bytes : Nat) : Option Specifier :=
  match bytes with
  | 0 | 1 => some .Push1
  | 2 => some .Push2
  | 3 => some .Push3
  | 4 => some .Push4
  | 5 => some .Push5
  | 6 => some .Push6
  | 7 => some .Push7
  | 8 => some .Push8
  | 9 => some .Push9
  | 10 => some .Push10
  | 11 => some .Push11
  | 12 => some .Push12
  | 13 => some .Push13
  | 14 => some .Push14
  | 15 => some .Push15
  | 16 => some .Push16
  | 17 => some .Push17
  | 18 => some .Push18
  | 19 => some .Push19
  | 20 => some .Push20
  | 21 => some .Push21
  | 22 => some .Push22
  | 23 => some .Push23
  | 24 => some .Push24
  | 25 => some .Push25
  | 26 => some .Push26
  | 27 => some .Push27
  | 28 => some .Push28
  | 29 => some .Push29
  | 30 => some .Push30
  | 31 => some .Push31
  | 32 => some .Push32
  | _ => none

/-- From the source: `Op::<Spec>::push_for`: `bits = 32 - n.leading_zeros()` is the bit length
of `n` (for `n < 2^32`, the `u32` range of the source); `bytes` is the byte
length `⌈bits/8⌉`. -/
def Specifier.pushFor (n : Nat) : Option Specifier :=
  let bits := bitLen n
  let bytes := (bits + 8 - 1) / 8
  Specifier.push bytes

set_option maxHeartbeats 4000000 in
theorem Specifier.fromU8_toU8 (s : Specifier) :
    Specifier.fromU8 s.toU8 = s := by
  cases s <;> rfl

instance : DecidableEq Specifier := fun a b =>
  if h : a.toU8 = b.toU8 then
    .isTrue (by
      have h2 := congrArg Specifier.fromU8 h
      rwa [Specifier.fromU8_toU8, Specifier.fromU8_toU8] at h2)
  else
    .isFalse (fun hab => h (by rw [hab]))

set_option maxHeartbeats 4000000 in
set_option maxRecDepth 2048 in
theorem Specifier.toU8_fromU8 : ∀ b : Fin 256,
    (Specifier.fromU8 b.val).toU8 = b.val := by
  decide

/-! ## Bytes and concrete ops (`ops.rs`, `Op<Concrete>`) -/

/-- Left-pad a byte string with zeros to length `n`.  Modelled from the spec:
the immediate conversions live in the absent `ops/imm.rs`; §4.5 prescribes
big-endian immediates "left-padded to the specifier's immediate length". -/
def padLeft (n : Nat) (bs : List Nat) : List Nat :=
  List.replicate (n - bs.length) 0 ++ bs

/-- A fully-concretized op: a specifier plus materialized immediate bytes
(`Op<Concrete>`; the `spec` field of the `ExpressionTooLarge` error payload is
dropped from the embedding, claims never inspect it). -/
structure ConcreteOp where
  spec : Specifier
  imm : List Nat
deriving DecidableEq

/-- From the source: `Op::size`: one opcode byte plus the specifier's immediate length. -/
def ConcreteOp.size (c : ConcreteOp) : Nat :=
  1 + c.spec.extraLen

/-- From the source: `Op::<Concrete>::assemble`: the opcode byte followed by the immediate. -/
def ConcreteOp.assemble (c : ConcreteOp) : List Nat :=
  c.spec.toU8 :: c.imm

/-- From the source: `AbstractOp::concretize` of `ops.rs` (lines 864-881), branch
`Push(Imm::Constant(konst))`: strip leading zero bytes, choose
`Specifier::push(trimmed.len())`, and store the immediate. -/
def concretizePushV0 (konst : List Nat) : Option ConcreteOp :=
  let trimmed := konst.dropWhile (· = 0)
  (Specifier.push trimmed.length).map (fun spec => ⟨spec, padLeft spec.extraLen trimmed⟩)

/-! ## Expressions and immediates

Modelled from the spec: the expression module (`ops/expression.rs`) is not in
the provided sources; §4.2-§4.3 describe it.  Expression-macro invocations are
omitted — no claim exercises them, every expression here evaluates without a
macro table. -/

/-- Modelled from the spec: a terminal of an arithmetic expression — integer
literal, label reference, or named variable (`variable` is a Lean keyword, so
the constructor is `var`). -/
inductive Terminal where
  | number (n : Int)
  | label (name : String)
  | var (name : String)
deriving DecidableEq

/-- Modelled from the spec (§4.3): binary-tree arithmetic over terminals. -/
inductive Expression where
  | terminal (t : Terminal)
  | plus (a b : Expression)
  | minus (a b : Expression)
  | times (a b : Expression)
  | divide (a b : Expression)
deriving DecidableEq

/-- Modelled from the spec (§4.3): the reasons evaluation can be blocked
(`ops::expression::Error`). -/
inductive EvalError where
  | unknownLabel (name : String)
  | unknownMacroName (name : String)
  | undefinedVariable (name : String)
deriving DecidableEq

/-- Modelled from the spec (§4.3): pure evaluation against the label table.
A label that is absent, or declared but not yet resolved, is unknown.
Division is truncating integer division as in `BigInt`. -/
def Expression.eval (labels : List (String × Option Nat)) :
    Expression → Except EvalError Int
  | .terminal (.number n) => .ok n
  | .terminal (.label l) =>
      match alookup labels l with
      | some (some a) => .ok (Int.ofNat a)
      | _ => .error (.unknownLabel l)
  | .terminal (.var v) => .error (.undefinedVariable v)
  | .plus a b => do pure ((← a.eval labels) + (← b.eval labels))
  | .minus a b => do pure ((← a.eval labels) - (← b.eval labels))
  | .times a b => do pure ((← a.eval labels) * (← b.eval labels))
  | .divide a b => do pure ((← a.eval labels) / (← b.eval labels))

/-- Modelled from the spec (§4.2): the set of label names mentioned by an
expression, first occurrence first (the source returns a `HashSet`). -/
def Expression.labelNames : Expression → List String
  | .terminal (.label l) => [l]
  | .terminal _ => []
  | .plus a b | .minus a b | .times a b | .divide a b =>
      (a.labelNames ++ b.labelNames).eraseDups

/-- Modelled from the spec (§4.2): `replace_label`, hygienic in-place rename. -/
def Expression.replaceLabel (old new : String) : Expression → Expression
  | .terminal (.label l) => if l = old then .terminal (.label new) else .terminal (.label l)
  | .terminal t => .terminal t
  | .plus a b => .plus (a.replaceLabel old new) (b.replaceLabel old new)
  | .minus a b => .minus (a.replaceLabel old new) (b.replaceLabel old new)
  | .times a b => .times (a.replaceLabel old new) (b.replaceLabel old new)
  | .divide a b => .divide (a.replaceLabel old new) (b.replaceLabel old new)

/-- Modelled from the spec (§4.2): `fill_variable`, substitute a variable leaf
with an expression. -/
def Expression.fillVariable (name : String) (value : Expression) :
    Expression → Expression
  | .terminal (.var v) => if v = name then value else .terminal (.var v)
  | .terminal t => .terminal t
  | .plus a b =>
      .plus (Expression.fillVariable name value a) (Expression.fillVariable name value b)
  | .minus a b =>
      .minus (Expression.fillVariable name value a) (Expression.fillVariable name value b)
  | .times a b =>
      .times (Expression.fillVariable name value a) (Expression.fillVariable name value b)
  | .divide a b =>
      .divide (Expression.fillVariable name value a) (Expression.fillVariable name value b)

/-- From the source: `Imm::with_label` builds an immediate whose expression is a label terminal
(witnessed by the `ExpressionTooLarge` payload asserted in
`assemble_label_too_large`). -/
def Imm.withLabel (l : String) : Expression :=
  .terminal (.label l)

/-- From the source: `Imm::with_variable`. -/
def Imm.withVariable (v : String) : Expression :=
  .terminal (.var v)

/-! ## Abstract ops (the `AbstractOp` consumed by `asm.rs`)

The `AbstractOp` of the provided `ops.rs` predates `asm.rs`; the variants and
operations below follow the spec (§3, §4.4) and the uses in `asm.rs`
(`Label`, `Push`, `Macro`, `MacroDefinition`, `expr`, `size`, context-taking
`concretize`).  Expression-macro definitions are omitted as above. -/

/-- An abstract operation.  `macroDefn` inlines the
`InstructionMacroDefinition` fields (name, parameter names, body). -/
inductive AbstractOp where
  | op (spec : Specifier) (imm : Option Expression)
  | label (name : String)
  | push (imm : Expression)
  | macroDefn (name : String) (parameters : List String) (contents : List AbstractOp)
  | macroInvoke (name : String) (parameters : List Expression)

/-- A registered instruction macro (value stored in `declared_macros`). -/
structure InstrMacro where
  name : String
  parameters : List String
  contents : List AbstractOp

/-- From the source: `AbstractOp::expr`: the expression carried by an op, if any (typed ops
with an immediate, and unsized pushes). -/
def AbstractOp.expr : AbstractOp → Option Expression
  | .op _ imm => imm
  | .push imm => some imm
  | _ => none

/-- From the source: `AbstractOp::size`: known for typed ops and declarations, unknown for
unsized pushes and macro invocations. -/
def AbstractOp.size : AbstractOp → Option Nat
  | .op spec _ => some (1 + spec.extraLen)
  | .label _ => some 0
  | .push _ => none
  | .macroDefn _ _ _ => some 0
  | .macroInvoke _ _ => none

/-- Modelled from the spec (§4.4): the errors of the context-taking
`concretize` (`ops::Error`): blocked evaluation, oversized value, negative
value. -/
inductive OpsError where
  | contextIncomplete (source : EvalError)
  | expressionTooLarge (expr : Expression) (value : Int)
  | expressionNegative (expr : Expression) (value : Int)
deriving DecidableEq

/-- The minimal big-endian byte string of `v` (`BigInt::to_bytes_be`; empty
for zero). -/
def natBytes (v : Nat) : List Nat :=
  beBytes (byteLen v) v

/-- Modelled from the spec (§4.4): evaluate the immediate in the label
context and materialize it.  A sized push fails `ExpressionTooLarge` when the
value exceeds its immediate width; an unsized push picks the minimal push
specifier and fails `ExpressionTooLarge` past 32 bytes (the behaviour the
`assemble_variable_push_too_large` test asserts).  The outer `Option` is
`none` on the variants the source `panic!`s on (plain labels, definitions,
invocations). -/
def AbstractOp.concretize (labels : List (String × Option Nat)) :
    AbstractOp → Option (Except OpsError ConcreteOp)
  | .op spec none => some (.ok ⟨spec, []⟩)
  | .op spec (some e) =>
      match e.eval labels with
      | .error err => some (.error (.contextIncomplete err))
      | .ok v =>
          if v < 0 then some (.error (.expressionNegative e v))
          else if (256 : Int) ^ spec.extraLen ≤ v then
            some (.error (.expressionTooLarge e v))
          else some (.ok ⟨spec, beBytes spec.extraLen v.toNat⟩)
  | .push e =>
      match e.eval labels with
      | .error err => some (.error (.contextIncomplete err))
      | .ok v =>
          if v < 0 then some (.error (.expressionNegative e v))
          else
            let stripped := natBytes v.toNat
            match Specifier.push stripped.length with
            | none => some (.error (.expressionTooLarge e v))
            | some spec => some (.ok ⟨spec, padLeft spec.extraLen stripped⟩)
  | .label _ => none
  | .macroDefn _ _ _ => none
  | .macroInvoke _ _ => none

/-! ## The assembler (`asm.rs`) -/

/-- From the source: `RawOp`: an abstract op or verbatim raw bytes. -/
inductive RawOp where
  | op (a : AbstractOp)
  | raw (bytes : List Nat)

/-- From the source: `RawOp::expr`. -/
def RawOp.expr : RawOp → Option Expression
  | .op a => a.expr
  | .raw _ => none

/-- A pending reference to an undeclared label: name and the value of
`ready.len()` when the reference was admitted. -/
structure PendingLabel where
  label : String
  position : Nat
deriving DecidableEq

/-- A pending invocation of an undefined instruction macro. -/
structure PendingMacro where
  name : String
  parameters : List Expression
  position : Nat
deriving DecidableEq

/-- From the source: `asm::Error`, without backtraces, without the parser-facing
`ParseInclude` wrapper, and without the `spec` payload of
`ExpressionTooLarge` (never inspected by a claim). -/
inductive Error where
  | duplicateLabel (label : String)
  | duplicateMacroDefn (name : String)
  | expressionTooLarge (expr : Expression) (value : Int)
  | expressionNegative (expr : Expression) (value : Int)
  | unsizedPushTooLarge
  | undeclaredLabels (labels : List String)
  | undeclaredInstrMacroName (name : String)
  | undeclaredExpressionMacroName (name : String)
deriving DecidableEq

/-- The assembler state.  `fresh` models `rand::thread_rng`: the source draws
a fresh `u64` per mangled label; per the spec (§5) "a counter suffices", and
the embedding uses consecutive counter values for the random suffixes. -/
structure Assembler where
  ready : List RawOp
  concreteLen : Nat
  declaredLabels : List (String × Option Nat)
  declaredMacros : List (String × InstrMacro)
  undefinedLabels : List PendingLabel
  undefinedMacros : List PendingMacro
  fresh : Nat

/-- From the source: `Assembler::new`. -/
def Assembler.new : Assembler :=
  ⟨[], 0, [], [], [], [], 0⟩

/-- From the source: `Vec::insert` at a position, or `Vec::push` when no position is given. -/
def insertAt (l : List RawOp) (pos : Option Nat) (x : RawOp) : List RawOp :=
  match pos with
  | some p => l.take p ++ x :: l.drop p
  | none => l ++ [x]

/-- From the source: `Assembler::declare_content`: register explicit label/macro declarations
(failing on duplicates), then record a pending entry at position
`ready.len()` for every label mentioned by the item's expression that is not
yet declared. -/
def declareContent (s : Assembler) (rop : RawOp) : Except Error Assembler := do
  let s1 ←
    match rop with
    | .op (.label l) =>
        if (alookup s.declaredLabels l).isSome then
          Except.error (Error.duplicateLabel l)
        else
          Except.ok { s with declaredLabels := ainsert s.declaredLabels l none }
    | .op (.macroDefn name params contents) =>
        if (alookup s.declaredMacros name).isSome then
          Except.error (Error.duplicateMacroDefn name)
        else
          Except.ok { s with declaredMacros := ainsert s.declaredMacros name ⟨name, params, contents⟩ }
    | _ => Except.ok s
  match rop.expr with
  | some e =>
      let fresh := (e.labelNames.filter (fun l => (alookup s1.declaredLabels l).isNone)).map
        (fun l => PendingLabel.mk l s1.ready.length)
      pure { s1 with undefinedLabels := s1.undefinedLabels ++ fresh }
  | none => pure s1

/-- First pass of `Assembler::expand_macro`: walk the body, rename every
locally-declared label to `"{name}_{label}_{id}"` with a fresh id, failing on
a duplicate local label.  Returns the renamed body, the rename map, and the
next fresh id. -/
def mangleContents (mname : String) (fresh : Nat) (acc : List (String × String)) :
    List AbstractOp → Except String (List AbstractOp × List (String × String) × Nat)
  | [] => .ok ([], acc, fresh)
  | .label l :: rest =>
      if (alookup acc l).isSome then .error l
      else
        let mangled := mname ++ "_" ++ l ++ "_" ++ toString fresh
        (mangleContents mname (fresh + 1) (ainsert acc l mangled) rest).map
          (fun r => (AbstractOp.label mangled :: r.1, r.2))
  | op :: rest =>
      (mangleContents mname fresh acc rest).map (fun r => (op :: r.1, r.2))

/-- Second pass of `Assembler::expand_macro` on one op: replace
locally-declared labels by their mangled names, then fill in the parameter
bindings. -/
def substOp (labelsMap : List (String × String)) (bindings : List (String × Expression)) :
    AbstractOp → AbstractOp :=
  fun a =>
    let subst := fun (e : Expression) =>
      let e1 := labelsMap.foldl (fun e p => e.replaceLabel p.1 p.2) e
      bindings.foldl (fun e p => e.fillVariable p.1 p.2) e1
    match a with
    | .op spec (some e) => .op spec (some (subst e))
    | .push e => .push (subst e)
    | other => other

/-- Sequencing for panic-or-error results: propagate panics (`none`) and
errors, continue on success. -/
def bindA (x : Option (Except Error Assembler))
    (f : Assembler → Option (Except Error Assembler)) :
    Option (Except Error Assembler) :=
  match x with
  | none => none
  | some (.error e) => some (.error e)
  | some (.ok s) => f s

/-- From the source: `Assembler::expand_macro`, parametrized by the re-admission function
(`push` one fuel level down): hygienically rename local labels, substitute
parameters, and re-admit the body — at offset
`ready.len() - actual_size + pos` (recomputed per iteration) for a queued
forward invocation, appending otherwise.  An invocation of an unknown macro
is queued in `undefined_macros`; a parameter-count mismatch `panic!`s. -/
def expandWith (pushF : Assembler → RawOp → Option Nat → Option (Except Error Assembler))
    (s : Assembler) (name : String) (params : List Expression)
    (position : Option Nat) : Option (Except Error Assembler) :=
  match alookup s.declaredMacros name with
  | some m =>
      if m.parameters.length ≠ params.length then none
      else
        let bindings := m.parameters.zip params
        match mangleContents m.name s.fresh [] m.contents with
        | .error l => some (.error (.duplicateLabel l))
        | .ok (contents1, labelsMap, fr) =>
            let contents2 := contents1.map (substOp labelsMap bindings)
            let s1 := { s with fresh := fr }
            match position with
            | some p =>
                let actualSize := s1.ready.length
                contents2.foldl
                  (fun acc op => bindA acc (fun s2 =>
                    pushF s2 (.op op) (some (s2.ready.length - actualSize + p))))
                  (some (.ok s1))
            | none =>
                contents2.foldl
                  (fun acc op => bindA acc (fun s2 => pushF s2 (.op op) none))
                  (some (.ok s1))
  | none =>
      some (.ok { s with
        undefinedMacros := s.undefinedMacros ++ [⟨name, params, s.ready.length⟩] })

/-- From the source: `Assembler::push_rawop`, parametrized by the re-admission function used
when a macro definition releases queued forward invocations. -/
def pushRawWith (pushF : Assembler → RawOp → Option Nat → Option (Except Error Assembler))
    (s : Assembler) (rop : RawOp) (pos : Option Nat) :
    Option (Except Error Assembler) :=
  match rop with
  | .op (.label l) =>
      if ∃ ul ∈ s.undefinedLabels, ul.label = l ∧ s.concreteLen < ul.position then
        -- `self.concrete_len - ul.position` is `usize` arithmetic: when a
        -- pending position exceeds `concrete_len` (reachable through
        -- zero-length `Raw` items, which grow `ready` but not
        -- `concrete_len`) the subtraction underflows — a panic in debug
        -- builds, a wrap in release.  The embedding models the underflow as
        -- the panic; on all other states `Nat` subtraction agrees with
        -- `usize`.
        none
      else
        let dst := s.undefinedLabels.foldl
          (fun dst ul => if ul.label = l then max ((s.concreteLen - ul.position) / 256) dst else dst) 0
        let undef := s.undefinedLabels.filter (fun ul => ul.label ≠ l)
        match alookup s.declaredLabels l with
        | some none =>
            some (.ok { s with
              undefinedLabels := undef,
              declaredLabels := ainsert s.declaredLabels l (some (s.concreteLen + dst)) })
        | _ => none
  | .op (.macroDefn name _ _) =>
      let toExpand := s.undefinedMacros.filter (fun um => um.name = name)
      let s1 := { s with undefinedMacros := s.undefinedMacros.filter (fun um => um.name ≠ name) }
      toExpand.foldl
        (fun acc pm => bindA acc (fun s2 =>
          expandWith pushF s2 pm.name pm.parameters (some pm.position)))
        (some (.ok s1))
  | .op (.macroInvoke _ _) => some (.ok s)
  | .op a =>
      match a.concretize s.declaredLabels with
      | none => none
      | some (.ok cop) =>
          some (.ok { s with
            concreteLen := s.concreteLen + cop.size,
            ready := insertAt s.ready pos rop })
      | some (.error (.expressionTooLarge _ v)) =>
          match a.expr with
          | some e0 => some (.error (.expressionTooLarge e0 v))
          | none => none
      | some (.error (.expressionNegative _ v)) =>
          match a.expr with
          | some e0 => some (.error (.expressionNegative e0 v))
          | none => none
      | some (.error (.contextIncomplete (.unknownLabel _))) =>
          let size := a.size.getD 2
          some (.ok { s with
            concreteLen := s.concreteLen + size,
            ready := s.ready ++ [rop] })
      | some (.error (.contextIncomplete (.unknownMacroName n))) =>
          some (.error (.undeclaredInstrMacroName n))
      | some (.error (.contextIncomplete (.undefinedVariable _))) => none
  | .raw bytes =>
      some (.ok { s with
        concreteLen := s.concreteLen + bytes.length,
        ready := insertAt s.ready pos rop })

/-- From the source: `Assembler::push`: declare, then either expand a macro invocation inline
or fall through to `push_rawop`.  `fuel` bounds the macro-expansion depth
(the source recursion is unbounded); it is decremented only when recursing
into re-admitted macro bodies.  The `Option` layer is `none` on Rust panics
and on fuel exhaustion. -/
def Assembler.push : Nat → Assembler → RawOp → Option Nat → Option (Except Error Assembler)
  | 0, _, _, _ => none
  | fuel + 1, s, rop, pos =>
    match declareContent s rop with
    | .error e => some (.error e)
    | .ok s1 =>
      match rop with
      | .op (.macroInvoke name params) =>
          expandWith (Assembler.push fuel) s1 name params none
      | _ => pushRawWith (Assembler.push fuel) s1 rop pos

/-- From the source: `Assembler::push_all`: iterate `push` (with no position). -/
def Assembler.pushAll (fuel : Nat) (s : Assembler) (rops : List RawOp) :
    Option (Except Error Assembler) :=
  rops.foldl (fun acc rop => bindA acc (fun s1 => Assembler.push fuel s1 rop none))
    (some (.ok s))

/-- The loop body of `Assembler::concretize_ops`: concretize every ready item
against the current tables and concatenate the encodings.  A blocked label
turns into `UndeclaredLabels` over the pending-label names, a blocked macro
into `UndeclaredInstructionMacro`; the `todo!` (undefined variable) and
`unreachable!` (any other failure) arms are panics (`none`). -/
def Assembler.concretizeList (s : Assembler) : List RawOp → Option (Except Error (List Nat))
  | [] => some (.ok [])
  | .op a :: rest =>
      match a.concretize s.declaredLabels with
      | some (.ok cop) =>
          match Assembler.concretizeList s rest with
          | some (.ok out) => some (.ok (cop.assemble ++ out))
          | other => other
      | some (.error (.contextIncomplete (.unknownLabel _))) =>
          some (.error (.undeclaredLabels (s.undefinedLabels.map (·.label))))
      | some (.error (.contextIncomplete (.unknownMacroName n))) =>
          some (.error (.undeclaredInstrMacroName n))
      | some (.error (.contextIncomplete (.undefinedVariable _))) => none
      | some (.error _) => none
      | none => none
  | .raw bytes :: rest =>
      match Assembler.concretizeList s rest with
      | some (.ok out) => some (.ok (bytes ++ out))
      | other => other

/-- From the source: `Assembler::concretize_ops`. -/
def Assembler.concretizeOps (s : Assembler) : Option (Except Error (List Nat)) :=
  Assembler.concretizeList s s.ready

/-- From the source: `Assembler::take`: emit everything on success (clearing `ready`), the
empty batch on error (state untouched); panics propagate. -/
def Assembler.take (s : Assembler) : Option (List Nat × Assembler) :=
  match Assembler.concretizeOps s with
  | some (.ok v) => some (v, { s with ready := [] })
  | some (.error _) => some ([], s)
  | none => none

/-- From the source: `Assembler::finish`: pending labels first, then pending macros (only the
first pending macro is named). -/
def Assembler.finish (s : Assembler) : Except Error Unit :=
  match s.undefinedLabels, s.undefinedMacros with
  | [], [] => .ok ()
  | [], pm :: _ => .error (.undeclaredInstrMacroName pm.name)
  | uls, _ => .error (.undeclaredLabels (uls.map (·.label)))


/-! ## Helper lemmas -/

theorem alookup_ainsert_self {α : Type} (m : List (String × α)) (k : String) (v : α) :
    alookup (ainsert m k v) k = some v := by
  induction m with
  | nil => simp [ainsert, alookup]
  | cons p rest ih =>
      by_cases h : p.1 = k
      · simp [ainsert, alookup, h]
      · simp [ainsert, alookup, h, ih]

theorem ainsert_ainsert {α : Type} (m : List (String × α)) (k : String) (v w : α) :
    ainsert (ainsert m k v) k w = ainsert m k w := by
  induction m with
  | nil => simp [ainsert]
  | cons p rest ih =>
      by_cases h : p.1 = k
      · simp [ainsert, h]
      · simp [ainsert, h, ih]

theorem listMax_cons (x : Nat) (l : List Nat) : listMax (x :: l) = max x (listMax l) := rfl

theorem foldl_max_filter (L : String) (C : Nat) :
    ∀ (l : List PendingLabel) (d : Nat),
      l.foldl (fun dst ul =>
          if ul.label = L then max ((C - ul.position) / 256) dst else dst) d
        = max d (listMax ((l.filter (fun ul => ul.label = L)).map
            (fun ul => (C - ul.position) / 256))) := by
  intro l
  induction l with
  | nil => intro d; simp [listMax]
  | cons ul rest ih =>
      intro d
      simp only [List.foldl_cons]
      by_cases h : ul.label = L
      · rw [if_pos h, ih, List.filter_cons_of_pos (by simp [h]), List.map_cons,
          listMax_cons, Nat.max_comm ((C - ul.position) / 256) d, Nat.max_assoc]
      · rw [if_neg h, ih, List.filter_cons_of_neg (by simp [h])]

theorem digitLenAux_spec {b : Nat} (hb : 2 ≤ b) :
    ∀ f v, v ≤ f →
      v < b ^ digitLenAux b f v ∧ (1 ≤ v → b ^ (digitLenAux b f v - 1) ≤ v) := by
  intro f
  induction f with
  | zero =>
      intro v hv
      have hv0 : v = 0 := by omega
      subst hv0
      simp [digitLenAux]
  | succ f ih =>
      intro v hv
      by_cases h0 : v = 0
      · subst h0; simp [digitLenAux]
      · have hv1 : 1 ≤ v := by omega
        have hvb : v / b < v := Nat.div_lt_self (by omega) (by omega)
        have hdiv : v / b ≤ f := by omega
        have IH := ih (v / b) hdiv
        simp only [digitLenAux, h0, if_false]
        set k := digitLenAux b f (v / b) with hk
        have e1 : b * (v / b) + v % b = v := Nat.div_add_mod v b
        have e2 : v % b < b := Nat.mod_lt v (by omega)
        refine ⟨?_, fun _ => ?_⟩
        · have h1 : v / b + 1 ≤ b ^ k := IH.1
          have h2 : b * (v / b + 1) ≤ b * b ^ k := Nat.mul_le_mul_left b h1
          have e3 : b ^ (k + 1) = b * b ^ k := by rw [pow_succ]; ring
          have e4 : b * (v / b + 1) = b * (v / b) + b := by ring
          omega
        · simp only [Nat.add_sub_cancel]
          by_cases hq : v / b = 0
          · have hz : k = 0 := by rw [hk, hq]; cases f <;> simp [digitLenAux]
            rw [hz]
            simpa using hv1
          · have hq1 : 1 ≤ v / b := Nat.pos_of_ne_zero hq
            have hk1 : 1 ≤ k := by
              rw [hk]
              cases f with
              | zero => exact absurd (Nat.le_zero.mp hdiv) hq
              | succ f2 => simp [digitLenAux, hq]
            have h5 : b ^ (k - 1) ≤ v / b := IH.2 hq1
            have h7 : b * b ^ (k - 1) ≤ b * (v / b) := Nat.mul_le_mul_left b h5
            have e6 : b ^ k = b * b ^ (k - 1) := by
              conv_lhs => rw [show k = (k - 1) + 1 by omega]
              rw [pow_succ]; ring
            omega

theorem bitLen_lt (v : Nat) : v < 2 ^ bitLen v :=
  (digitLenAux_spec (by omega) v v (le_refl v)).1

theorem bitLen_le (v : Nat) (h : 1 ≤ v) : 2 ^ (bitLen v - 1) ≤ v :=
  (digitLenAux_spec (by omega) v v (le_refl v)).2 h

theorem bitLen_zero : bitLen 0 = 0 := rfl

theorem beVal_aux (l : List Nat) :
    ∀ acc, List.foldl (fun acc b => 256 * acc + b) acc l
      = acc * 256 ^ l.length + List.foldl (fun acc b => 256 * acc + b) 0 l := by
  induction l with
  | nil => intro acc; simp
  | cons b rest ih =>
      intro acc
      simp only [List.foldl_cons]
      rw [ih (256 * acc + b), ih (256 * 0 + b)]
      simp only [List.length_cons]
      ring

theorem beVal_cons (b : Nat) (rest : List Nat) :
    beVal (b :: rest) = b * 256 ^ rest.length + beVal rest := by
  simp only [beVal, List.foldl_cons]
  rw [beVal_aux rest (256 * 0 + b)]
  ring

theorem beVal_lt (bs : List Nat) (h : ∀ x ∈ bs, x < 256) :
    beVal bs < 256 ^ bs.length := by
  induction bs with
  | nil => simp [beVal]
  | cons b rest ih =>
      have hb : b < 256 := h b (by simp)
      have hr : beVal rest < 256 ^ rest.length := ih (fun x hx => h x (by simp [hx]))
      rw [beVal_cons]
      have h1 : b * 256 ^ rest.length + beVal rest
          < b * 256 ^ rest.length + 256 ^ rest.length := by omega
      have h2 : b * 256 ^ rest.length + 256 ^ rest.length
          = (b + 1) * 256 ^ rest.length := by ring
      have h3 : (b + 1) * 256 ^ rest.length ≤ 256 * 256 ^ rest.length :=
        Nat.mul_le_mul_right _ (by omega)
      have h4 : (256 : Nat) * 256 ^ rest.length = 256 ^ (rest.length + 1) := by
        rw [pow_succ]; ring
      simp only [List.length_cons]
      omega

theorem beVal_lower (b : Nat) (rest : List Nat) (h : b ≠ 0) :
    256 ^ rest.length ≤ beVal (b :: rest) := by
  rw [beVal_cons]
  have : 1 * 256 ^ rest.length ≤ b * 256 ^ rest.length :=
    Nat.mul_le_mul_right _ (by omega)
  omega

theorem beVal_dropWhile (bs : List Nat) :
    beVal (bs.dropWhile (· = 0)) = beVal bs := by
  induction bs with
  | nil => rfl
  | cons b rest ih =>
      by_cases h : b = 0
      · subst h
        have h1 : (0 :: rest).dropWhile (· = 0) = rest.dropWhile (· = 0) := by
          simp [List.dropWhile]
        have h2 : beVal (0 :: rest) = beVal rest := by simp [beVal_cons]
        rw [h1, ih, h2]
      · have h1 : (b :: rest).dropWhile (· = 0) = b :: rest := by
          simp [List.dropWhile, h]
        rw [h1]

theorem dropWhile_head_ne (bs : List Nat) :
    ∀ b rest, bs.dropWhile (· = 0) = b :: rest → b ≠ 0 := by
  induction bs with
  | nil => intro b rest h; simp [List.dropWhile] at h
  | cons x xs ih =>
      intro b rest h
      rw [List.dropWhile_cons] at h
      by_cases hx : x = 0
      · rw [if_pos (by simp [hx])] at h
        exact ih b rest h
      · rw [if_neg (by simp [hx])] at h
        cases h
        exact hx

theorem pushWidth : ∀ n, n < 33 →
    ((Specifier.push n).map Specifier.extraLen).getD 99 = max 1 n := by decide

theorem push_isSome : ∀ n, n < 33 → (Specifier.push n).isSome = true := by decide

theorem push_idem : ∀ n, n < 33 →
    (Specifier.push n).map (fun sp => Specifier.push sp.extraLen)
      = (Specifier.push n).map some := by decide

theorem push_zero : Specifier.push 0 = some .Push1 := rfl

theorem push_big (n : Nat) (h : 32 < n) : Specifier.push n = none := by
  obtain ⟨m, rfl⟩ : ∃ m, n = m + 33 := ⟨n - 33, by omega⟩
  rfl

/-! ## Claim C8 -/

/-- C8: for every byte `b`, converting `b` to a specifier and back yields `b`;
and for every specifier `s` (all 256, including the `Invalid_XX`
placeholders), converting `s` to its byte and back yields `s`. -/
theorem claim_C8_opcode_bijection :
    (∀ b : Fin 256, (Specifier.fromU8 b.val).toU8 = b.val) ∧
    (∀ s : Specifier, Specifier.fromU8 s.toU8 = s) :=
  ⟨Specifier.toU8_fromU8, Specifier.fromU8_toU8⟩

/-! ## Claim C2 -/

/-- C2: for every unsized push whose immediate resolves to non-negative `v`
(the big-endian value of the constant `konst`), the chosen specifier is the
smallest `PushN` whose `N`-byte immediate holds `v` (i.e. `v < 256^N`, with
`N = 1` for `v = 0`); leading zero bytes are stripped before width selection;
a stripped value longer than 32 bytes selects no specifier.  The second
conjunct states the same minimality for `push_for`, over its `u32` domain. -/
theorem claim_C2_minimum_push_width :
    (∀ konst : List Nat, (∀ x ∈ konst, x < 256) →
      ((konst.dropWhile (· = 0)).length ≤ 32 →
        ∃ cop, concretizePushV0 konst = some cop ∧
          Specifier.push cop.spec.extraLen = some cop.spec ∧
          beVal konst < 256 ^ cop.spec.extraLen ∧
          (∀ m, 1 ≤ m → beVal konst < 256 ^ m → cop.spec.extraLen ≤ m) ∧
          (beVal konst = 0 → cop.spec = .Push1)) ∧
      (32 < (konst.dropWhile (· = 0)).length → concretizePushV0 konst = none)) ∧
    (∀ v : Nat, v < 2 ^ 32 →
      ∃ sp, Specifier.pushFor v = some sp ∧
        v < 256 ^ sp.extraLen ∧
        (∀ m, 1 ≤ m → v < 256 ^ m → sp.extraLen ≤ m) ∧
        (v = 0 → sp = .Push1)) := by
  constructor
  · intro konst hb
    have hstrip : beVal (konst.dropWhile (· = 0)) = beVal konst := beVal_dropWhile konst
    constructor
    · intro hlen
      obtain ⟨sp, hsp⟩ := Option.isSome_iff_exists.mp
        (push_isSome (konst.dropWhile (· = 0)).length (by omega))
      have hext : sp.extraLen = max 1 (konst.dropWhile (· = 0)).length := by
        have h := pushWidth (konst.dropWhile (· = 0)).length (by omega)
        rw [hsp] at h
        simpa using h
      have hub : beVal konst < 256 ^ sp.extraLen := by
        have h1 : beVal (konst.dropWhile (· = 0))
            < 256 ^ (konst.dropWhile (· = 0)).length :=
          beVal_lt _ (fun x hx => hb x ((List.dropWhile_sublist _).subset hx))
        have h2 : (256 : Nat) ^ (konst.dropWhile (· = 0)).length ≤ 256 ^ sp.extraLen := by
          apply Nat.pow_le_pow_right (by omega)
          rw [hext]
          exact Nat.le_max_right _ _
        omega
      have hidem : Specifier.push sp.extraLen = some sp := by
        have h := push_idem (konst.dropWhile (· = 0)).length (by omega)
        rw [hsp] at h
        simpa using h
      have hmin : ∀ m, 1 ≤ m → beVal konst < 256 ^ m → sp.extraLen ≤ m := by
        intro m hm hvm
        rcases Nat.eq_zero_or_pos (konst.dropWhile (· = 0)).length with hz | hpos
        · rw [hext, hz]
          simpa using hm
        · have hext2 : sp.extraLen = (konst.dropWhile (· = 0)).length := by
            rw [hext]
            exact Nat.max_eq_right hpos
          rw [hext2]
          by_contra hc
          push_neg at hc
          obtain ⟨c, rest, hcr⟩ : ∃ c rest, konst.dropWhile (· = 0) = c :: rest := by
            cases hd : konst.dropWhile (· = 0) with
            | nil => rw [hd] at hpos; simp at hpos
            | cons c rest => exact ⟨c, rest, rfl⟩
          have hc0 : c ≠ 0 := dropWhile_head_ne konst c rest hcr
          have hlow : 256 ^ rest.length ≤ beVal (konst.dropWhile (· = 0)) := by
            rw [hcr]
            exact beVal_lower c rest hc0
          have hrl : rest.length + 1 = (konst.dropWhile (· = 0)).length := by
            rw [hcr]
            simp
          have hmle : m ≤ rest.length := by omega
          have hple : (256 : Nat) ^ m ≤ 256 ^ rest.length :=
            Nat.pow_le_pow_right (by omega) hmle
          omega
      have hzero : beVal konst = 0 → sp = .Push1 := by
        intro hv0
        have hlz : (konst.dropWhile (· = 0)).length = 0 := by
          by_contra hne
          obtain ⟨c, rest, hcr⟩ : ∃ c rest, konst.dropWhile (· = 0) = c :: rest := by
            cases hd : konst.dropWhile (· = 0) with
            | nil => rw [hd] at hne; simp at hne
            | cons c rest => exact ⟨c, rest, rfl⟩
          have hc0 : c ≠ 0 := dropWhile_head_ne konst c rest hcr
          have hlow : 256 ^ rest.length ≤ beVal (konst.dropWhile (· = 0)) := by
            rw [hcr]
            exact beVal_lower c rest hc0
          have hpos2 : (0 : Nat) < 256 ^ rest.length := Nat.pow_pos (by omega)
          omega
        rw [hlz, push_zero] at hsp
        cases hsp
        rfl
      have hconc : concretizePushV0 konst
          = some ⟨sp, padLeft sp.extraLen (konst.dropWhile (· = 0))⟩ := by
        have hdef : concretizePushV0 konst
            = (Specifier.push (konst.dropWhile (· = 0)).length).map
                (fun spec => ⟨spec, padLeft spec.extraLen (konst.dropWhile (· = 0))⟩) := rfl
        rw [hdef, hsp]
        rfl
      exact ⟨⟨sp, padLeft sp.extraLen (konst.dropWhile (· = 0))⟩,
        hconc, hidem, hub, hmin, hzero⟩
    · intro hlen
      simp [concretizePushV0, push_big _ hlen]
  · intro v hv
    by_cases h0 : v = 0
    · subst h0
      exact ⟨.Push1, rfl, by norm_num, fun m hm _ => hm, fun _ => rfl⟩
    · have hv1 : 1 ≤ v := Nat.pos_of_ne_zero h0
      have hblt : v < 2 ^ bitLen v := bitLen_lt v
      have hble : 2 ^ (bitLen v - 1) ≤ v := bitLen_le v hv1
      have hb1 : 1 ≤ bitLen v := by
        by_contra hc
        have hc0 : bitLen v = 0 := by omega
        rw [hc0] at hblt
        omega
      have hb32 : bitLen v ≤ 32 := by
        by_contra hc
        have h2 : (2 : Nat) ^ 32 ≤ 2 ^ (bitLen v - 1) :=
          Nat.pow_le_pow_right (by omega) (by omega)
        omega
      have hbytes1 : 1 ≤ (bitLen v + 8 - 1) / 8 := by omega
      have hbytes4 : (bitLen v + 8 - 1) / 8 ≤ 32 := by omega
      obtain ⟨sp, hsp⟩ := Option.isSome_iff_exists.mp
        (push_isSome ((bitLen v + 8 - 1) / 8) (by omega))
      have hext : sp.extraLen = (bitLen v + 8 - 1) / 8 := by
        have h := pushWidth ((bitLen v + 8 - 1) / 8) (by omega)
        rw [hsp] at h
        simp at h
        rw [h]
        exact Nat.max_eq_right hbytes1
      have hpow : ∀ a : Nat, (256 : Nat) ^ a = 2 ^ (8 * a) := by
        intro a
        rw [show (256 : Nat) = 2 ^ 8 from rfl, ← pow_mul]
      refine ⟨sp, hsp, ?_, ?_, fun h => absurd h h0⟩
      · rw [hext, hpow]
        have h8 : bitLen v ≤ 8 * ((bitLen v + 8 - 1) / 8) := by omega
        have h2 : (2 : Nat) ^ bitLen v ≤ 2 ^ (8 * ((bitLen v + 8 - 1) / 8)) :=
          Nat.pow_le_pow_right (by omega) h8
        omega
      · intro m hm hvm
        rw [hext]
        by_contra hc
        push_neg at hc
        have h8 : 8 * m ≤ bitLen v - 1 := by omega
        have h1 : (256 : Nat) ^ m ≤ 2 ^ (bitLen v - 1) := by
          rw [hpow]
          exact Nat.pow_le_pow_right (by omega) h8
        omega

/-- Witness for C2: the two-byte constant `[1, 0]` (value 256) and the
33-byte constant of ones on the old path, and the value 256 on `push_for`. -/
theorem claim_C2_minimum_push_width_witness :
    (∃ cop, concretizePushV0 [1, 0] = some cop ∧
      Specifier.push cop.spec.extraLen = some cop.spec ∧
      beVal [1, 0] < 256 ^ cop.spec.extraLen ∧
      (∀ m, 1 ≤ m → beVal [1, 0] < 256 ^ m → cop.spec.extraLen ≤ m) ∧
      (beVal [1, 0] = 0 → cop.spec = .Push1)) ∧
    concretizePushV0 (List.replicate 33 1) = none ∧
    (∃ sp, Specifier.pushFor 256 = some sp ∧
      256 < 256 ^ sp.extraLen ∧
      (∀ m, 1 ≤ m → 256 < 256 ^ m → sp.extraLen ≤ m) ∧
      ((256 : Nat) = 0 → sp = .Push1)) :=
  ⟨(claim_C2_minimum_push_width.1 [1, 0] (by decide)).1 (by decide),
   (claim_C2_minimum_push_width.1 (List.replicate 33 1) (by decide)).2 (by decide),
   claim_C2_minimum_push_width.2 256 (by norm_num)⟩

/-! ## Scenario plumbing -/

/-- The state reached on success, `none` on a panic or an error. -/
def resultState : Option (Except Error Assembler) → Option Assembler
  | some (.ok s) => some s
  | _ => none

/-- The error reached, `none` on success or panic. -/
def resultErr : Option (Except Error Assembler) → Option Error
  | some (.error e) => some e
  | _ => none

/-- Run `push_all` on a fresh assembler. -/
def runAsm (fuel : Nat) (ops : List RawOp) : Option (Except Error Assembler) :=
  Assembler.pushAll fuel Assembler.new ops

/-- The error `push_all` reports after admitting `ops` into a fresh
assembler. -/
def runErr (fuel : Nat) (ops : List RawOp) : Option Error :=
  resultErr (runAsm fuel ops)

/-- The error `finish` reports, `none` when it succeeds. -/
def finishErr (s : Assembler) : Option Error :=
  match Assembler.finish s with
  | .error e => some e
  | .ok _ => none

/-- The bytes a `take` returns after admitting `ops` into a fresh assembler. -/
def runOut (fuel : Nat) (ops : List RawOp) : Option (List Nat) :=
  (resultState (runAsm fuel ops)).bind (fun s => (Assembler.take s).map (fun r => r.1))

/-- The `concrete_len` (the value `push_all` returns) after admitting `ops`. -/
def runLen (fuel : Nat) (ops : List RawOp) : Option Nat :=
  (resultState (runAsm fuel ops)).map (fun s => s.concreteLen)

/-- The declared address of `l` after admitting `ops`. -/
def runLabelAddr (fuel : Nat) (ops : List RawOp) (l : String) :
    Option (Option (Option Nat)) :=
  (resultState (runAsm fuel ops)).map (fun s => alookup s.declaredLabels l)

def opGetPc : RawOp := .op (.op .GetPc none)

def opJumpDest : RawOp := .op (.op .JumpDest none)

def push1WithLabel (l : String) : RawOp := .op (.op .Push1 (some (Imm.withLabel l)))

/-! ## Claim C3 -/

/-- S4, failing variant: 255 `GetPc`, `Label b`, `JumpDest`, `Label a`,
`JumpDest`, `Push1(Label a)`. -/
def s4FailOps : List RawOp :=
  List.replicate 255 opGetPc ++
    [.op (.label "b"), opJumpDest, .op (.label "a"), opJumpDest, push1WithLabel "a"]

/-- S4, succeeding variant: the final push references `b` instead. -/
def s4OkOps : List RawOp :=
  List.replicate 255 opGetPc ++
    [.op (.label "b"), opJumpDest, .op (.label "a"), opJumpDest, push1WithLabel "b"]

set_option maxHeartbeats 4000000 in
set_option maxRecDepth 100000 in
/-- C3: with labels `b = 255` and `a = 256`, admitting `Push1(Label a)` fails
with `ExpressionTooLarge` (payload: the label expression and value 256),
while the analogous `Push1(Label b)` stream succeeds at 259 bytes, draining
to 255 copies of `0x58` followed by `5b5b60ff`. -/
theorem claim_C3_widening_across_256 :
    runErr 3 s4FailOps = some (.expressionTooLarge (Imm.withLabel "a") 256) ∧
    runLen 3 s4OkOps = some 259 ∧
    runOut 3 s4OkOps = some (List.replicate 255 0x58 ++ [0x5b, 0x5b, 0x60, 0xff]) ∧
    (List.replicate 255 (0x58 : Nat) ++ [0x5b, 0x5b, 0x60, 0xff]).length = 259 := by
  refine ⟨by decide, by decide, by decide, by decide⟩

/-! ## Claim C4 -/

/-- The S5 instruction macro: `{ Label a; JumpDest; Push1(Label a);
Push1(Label b) }`. -/
def s5Defn : RawOp :=
  .op (.macroDefn "my_macro" []
    [.label "a", .op .JumpDest none, .op .Push1 (some (Imm.withLabel "a")),
     .op .Push1 (some (Imm.withLabel "b"))])

/-- S5 stream: the definition, outer `Label b; JumpDest; Push1(Label b)`, and
two invocations. -/
def s5Ops : List RawOp :=
  [s5Defn, .op (.label "b"), opJumpDest, push1WithLabel "b",
   .op (.macroInvoke "my_macro" []), .op (.macroInvoke "my_macro" [])]

/-- A degenerate macro whose body is a single label declaration, invoked
twice. -/
def c4DegOps : List RawOp :=
  [.op (.macroDefn "m" [] [.label "a"]),
   .op (.macroInvoke "m" []), .op (.macroInvoke "m" [])]

set_option maxHeartbeats 1000000 in
/-- C4 counterexample: for the degenerate macro `m { Label a }` invoked
twice, both hygienic copies of `a` resolve to address 0 — the two invocations
do not resolve `a` to two distinct addresses, refuting the claim as stated
(the stream is admitted without error). -/
theorem claim_C4_counterexample :
    runLabelAddr 5 c4DegOps "m_a_0" = some (some (some 0)) ∧
    runLabelAddr 5 c4DegOps "m_a_1" = some (some (some 0)) ∧
    runErr 5 c4DegOps = none := by
  refine ⟨by decide, by decide, by decide⟩

set_option maxHeartbeats 1000000 in
/-- C4 (amended): each invocation renames the local label to a fresh mangled
name, so references inside invocation `i` bind only to `i`'s copy; the two
copies get distinct addresses whenever the expansions start at distinct
offsets — in particular the S5 stream assembles to
`5b60005b600360005b60086000` with the two copies of `a` at the distinct
addresses 3 and 8. -/
theorem claim_C4_macro_hygiene :
    runOut 5 s5Ops
      = some [0x5b, 0x60, 0x00, 0x5b, 0x60, 0x03, 0x60, 0x00,
              0x5b, 0x60, 0x08, 0x60, 0x00] ∧
    runLabelAddr 5 s5Ops "my_macro_a_0" = some (some (some 3)) ∧
    runLabelAddr 5 s5Ops "my_macro_a_1" = some (some (some 8)) := by
  refine ⟨by decide, by decide, by decide⟩

/-! ## Claim C9 -/

/-- The state after pushing one `GetPc` and draining it. -/
def c9AfterTake : Option Assembler :=
  (resultState (runAsm 3 [opGetPc])).bind
    (fun s => (Assembler.take s).map (fun r => r.2))

/-- The state after pushing a second `GetPc` into the drained assembler. -/
def c9AfterSecondPush : Option Assembler :=
  c9AfterTake.bind (fun s => resultState (Assembler.push 3 s opGetPc none))

/-- C9 (the code at the failing input): `push(GetPc)` returns 1 and `take`
drains the byte `0x58`; a second `push(GetPc)` then returns `concrete_len`
2 — `concrete_len` is never reduced by `take` — although the immediately
following `take` emits only the one byte `0x58`.  The value `push` returns
is the cumulative length, not the drainable length. -/
theorem claim_C9_push_return_value :
    runLen 3 [opGetPc] = some 1 ∧
    (resultState (runAsm 3 [opGetPc])).bind
        (fun s => (Assembler.take s).map (fun r => r.1)) = some [0x58] ∧
    c9AfterSecondPush.map (fun s => s.concreteLen) = some 2 ∧
    c9AfterSecondPush.bind
        (fun s => (Assembler.take s).map (fun r => r.1)) = some [0x58] := by
  refine ⟨by decide, by decide, by decide, by decide⟩

/-! ## Claim C10 -/

/-- C10 (amended): a top-level op whose immediate evaluation reports an
undefined variable — in particular a bare variable immediate, sized or
unsized — panics inside `push` (the `todo!` branch) instead of returning an
error; the embedded `asm::Error` type has no undefined-variable variant. -/
theorem claim_C10_variable_panics (fuel : Nat) (s : Assembler)
    (spec : Specifier) (v : String) :
    Assembler.push (fuel + 1) s (.op (.op spec (some (Imm.withVariable v)))) none
      = none ∧
    Assembler.push (fuel + 1) s (.op (.push (Imm.withVariable v))) none = none :=
  ⟨rfl, rfl⟩

/-- Witness for C10 at a concrete instance. -/
theorem claim_C10_variable_panics_witness :
    Assembler.push 3 Assembler.new
        (.op (.op .Push1 (some (Imm.withVariable "foo")))) none = none ∧
    Assembler.push 3 Assembler.new (.op (.push (Imm.withVariable "foo"))) none
      = none :=
  claim_C10_variable_panics 2 Assembler.new .Push1 "foo"

/-- An op whose expression mentions an undeclared label and a variable. -/
def c10MixedOp : RawOp :=
  .op (.op .Push1 (some (.plus (Imm.withLabel "x") (Imm.withVariable "v"))))

/-- C10 counterexample: the claim quantifies over every op whose immediate
*contains* a variable reference, but an op whose evaluation is blocked first
by an unknown label is deferred by `push` and `take` returns the empty batch
without panicking; the diagnostic surfaces as `UndeclaredLabels` on
`finish`. -/
theorem claim_C10_counterexample :
    (resultState (runAsm 3 [c10MixedOp])).isSome = true ∧
    (resultState (runAsm 3 [c10MixedOp])).map
        (fun s => (Assembler.take s).isSome) = some true ∧
    (resultState (runAsm 3 [c10MixedOp])).map finishErr
      = some (some (.undeclaredLabels ["x"])) := by
  refine ⟨by decide, by decide, by decide⟩

/-! ## Claim C7 -/

/-- C7: admitting `Label(L)` when `L` is already declared fails with
`DuplicateLabel`, and admitting a macro definition whose name is already
registered fails with `DuplicateMacro`; the failing `declare_content` returns
before touching either table, so the existing entry survives.  (In the
functional embedding the error result carries no successor state at all.) -/
theorem claim_C7_duplicate_declarations (fuel : Nat) (s : Assembler) :
    (∀ (L : String) (v : Option Nat), alookup s.declaredLabels L = some v →
      Assembler.push (fuel + 1) s (.op (.label L)) none
        = some (.error (.duplicateLabel L))) ∧
    (∀ (name : String) (ps : List String) (cts : List AbstractOp)
        (m : InstrMacro), alookup s.declaredMacros name = some m →
      Assembler.push (fuel + 1) s (.op (.macroDefn name ps cts)) none
        = some (.error (.duplicateMacroDefn name))) := by
  constructor
  · intro L v h
    have h1 : (alookup s.declaredLabels L).isSome = true := by rw [h]; rfl
    simp [Assembler.push, declareContent, h1, Bind.bind, Except.bind]
  · intro name ps cts m h
    have h1 : (alookup s.declaredMacros name).isSome = true := by rw [h]; rfl
    simp [Assembler.push, declareContent, h1, Bind.bind, Except.bind]

/-- A state with one declared label and one registered macro. -/
def c7State : Assembler :=
  ⟨[], 0, [("lbl", some 0)], [("mac", ⟨"mac", [], []⟩)], [], [], 0⟩

/-- Witness for C7: duplicate declarations against `c7State`. -/
theorem claim_C7_duplicate_declarations_witness :
    Assembler.push 3 c7State (.op (.label "lbl")) none
      = some (.error (.duplicateLabel "lbl")) ∧
    Assembler.push 3 c7State (.op (.macroDefn "mac" [] [])) none
      = some (.error (.duplicateMacroDefn "mac")) :=
  ⟨(claim_C7_duplicate_declarations 2 c7State).1 "lbl" (some 0) rfl,
   (claim_C7_duplicate_declarations 2 c7State).2 "mac" [] [] ⟨"mac", [], []⟩ rfl⟩

/-! ## Claim C6 -/

/-- C6: `finish` succeeds exactly when no pending labels and no pending
macros remain; pending labels surface as `UndeclaredLabels` over every
pending name, and pending macros alone surface as
`UndeclaredInstructionMacro` (naming the first); the S8 stream
`Push1(Label "hi")` then `finish` yields `UndeclaredLabels ["hi"]`. -/
theorem claim_C6_finish_contract :
    (∀ s : Assembler,
      (Assembler.finish s = .ok ()
        ↔ s.undefinedLabels = [] ∧ s.undefinedMacros = [])) ∧
    (∀ s : Assembler, s.undefinedLabels ≠ [] →
      Assembler.finish s
        = .error (.undeclaredLabels (s.undefinedLabels.map (fun l => l.label)))) ∧
    (∀ (s : Assembler) (pm : PendingMacro) (rest : List PendingMacro),
      s.undefinedLabels = [] → s.undefinedMacros = pm :: rest →
      Assembler.finish s = .error (.undeclaredInstrMacroName pm.name)) ∧
    (resultState (runAsm 3 [push1WithLabel "hi"])).map finishErr
      = some (some (.undeclaredLabels ["hi"])) := by
  refine ⟨?_, ?_, ?_, by decide⟩
  · intro s
    constructor
    · intro h
      cases hl : s.undefinedLabels with
      | cons a as => simp [Assembler.finish, hl] at h
      | nil =>
          cases hm : s.undefinedMacros with
          | cons pm rest => simp [Assembler.finish, hl, hm] at h
          | nil => exact ⟨rfl, rfl⟩
    · rintro ⟨h1, h2⟩
      simp [Assembler.finish, h1, h2]
  · intro s h
    cases hl : s.undefinedLabels with
    | nil => exact absurd hl h
    | cons a as => simp [Assembler.finish, hl]
  · intro s pm rest h1 h2
    simp [Assembler.finish, h1, h2]

/-- A state with one pending label reference. -/
def c6Pending : Assembler := ⟨[], 2, [], [], [⟨"hi", 0⟩], [], 0⟩

/-- A state with one pending macro invocation only. -/
def c6PendingMac : Assembler := ⟨[], 0, [], [], [], [⟨"mm", [], 0⟩], 0⟩

/-- Witness for C6 at concrete states. -/
theorem claim_C6_finish_contract_witness :
    Assembler.finish Assembler.new = .ok () ∧
    Assembler.finish c6Pending
      = .error (.undeclaredLabels (c6Pending.undefinedLabels.map (fun l => l.label))) ∧
    Assembler.finish c6PendingMac = .error (.undeclaredInstrMacroName "mm") :=
  ⟨(claim_C6_finish_contract.1 Assembler.new).mpr ⟨rfl, rfl⟩,
   claim_C6_finish_contract.2.1 c6Pending (by simp [c6Pending]),
   claim_C6_finish_contract.2.2.1 c6PendingMac ⟨"mm", [], 0⟩ [] rfl rfl⟩

/-! ## Claim C1 -/

/-- The stream `Raw []; Raw []; Raw []; Push1(Label t)`: the zero-length raw
items grow `ready` without growing `concrete_len`, so the deferred push
records the pending position 3 while `concrete_len` is 2. -/
def c1UnderflowPrefix : List RawOp :=
  [.raw [], .raw [], .raw [], push1WithLabel "t"]

/-- The same stream followed by the declaration of `t`. -/
def c1UnderflowOps : List RawOp :=
  c1UnderflowPrefix ++ [.op (.label "t")]

/-- C1 counterexample: the claim quantifies over every assembler state, but
after `c1UnderflowPrefix` the pending reference to `t` sits at position 3
with `concrete_len = 2` and `t` undeclared; admitting `Label(t)` then
underflows the `usize` subtraction `concrete_len - ref_position` — a panic
in debug builds, a wrap in release — instead of declaring the address
`concrete_len + dst` the claim promises. -/
theorem claim_C1_counterexample :
    (resultState (runAsm 3 c1UnderflowPrefix)).map
        (fun s => (alookup s.declaredLabels "t", s.concreteLen,
          s.undefinedLabels.map (fun ul => (ul.label, ul.position))))
      = some (none, 2, [("t", 3)]) ∧
    (runAsm 3 c1UnderflowOps).isNone = true := by
  refine ⟨by decide, by decide⟩

set_option maxHeartbeats 1000000 in
/-- C1 (amended): admitting `Label(L)` (not yet declared), provided every
pending reference to `L` sits at a position not beyond `concrete_len` (the
`usize` subtraction underflows otherwise — see `claim_C1_counterexample`),
sets `L`'s address to `concrete_len + dst` where `dst` is the maximum over
all pending references to `L` of `(concrete_len - ref_position) / 256` (`0`
with no pending references), removes every pending entry for `L`, and leaves
`concrete_len` unchanged. -/
theorem claim_C1_label_declaration (fuel : Nat) (s : Assembler) (L : String)
    (hnew : alookup s.declaredLabels L = none)
    (hpos : ∀ ul ∈ s.undefinedLabels, ul.label = L → ul.position ≤ s.concreteLen) :
    ∃ s2, Assembler.push (fuel + 1) s (.op (.label L)) none = some (.ok s2) ∧
      alookup s2.declaredLabels L
        = some (some (s.concreteLen +
            listMax ((s.undefinedLabels.filter (fun ul => ul.label = L)).map
              (fun ul => (s.concreteLen - ul.position) / 256)))) ∧
      s2.undefinedLabels = s.undefinedLabels.filter (fun ul => ul.label ≠ L) ∧
      s2.concreteLen = s.concreteLen := by
  have h1 : (alookup s.declaredLabels L).isSome = false := by rw [hnew]; rfl
  have hd : declareContent s (.op (.label L))
      = Except.ok { s with declaredLabels := ainsert s.declaredLabels L none } := by
    simp [declareContent, h1, RawOp.expr, AbstractOp.expr]
  have hguard : ¬∃ ul ∈ s.undefinedLabels, ul.label = L ∧ s.concreteLen < ul.position := by
    rintro ⟨ul, hmem, hlab, hlt⟩
    exact absurd (hpos ul hmem hlab) (by omega)
  have hp : Assembler.push (fuel + 1) s (.op (.label L)) none
      = some (.ok { s with
          declaredLabels := ainsert (ainsert s.declaredLabels L none) L
            (some (s.concreteLen + s.undefinedLabels.foldl
              (fun dst ul =>
                if ul.label = L then max ((s.concreteLen - ul.position) / 256) dst
                else dst) 0)),
          undefinedLabels := s.undefinedLabels.filter (fun ul => ul.label ≠ L) }) := by
    simp only [Assembler.push, hd]
    simp only [pushRawWith, alookup_ainsert_self, if_neg hguard]
  refine ⟨_, hp, ?_, rfl, rfl⟩
  rw [alookup_ainsert_self, foldl_max_filter, Nat.zero_max]

/-- A state with pending references to `t` at positions 0 and 1 and 600
emitted bytes. -/
def c1State : Assembler :=
  ⟨[push1WithLabel "t", push1WithLabel "t"], 600, [], [],
   [⟨"t", 0⟩, ⟨"t", 1⟩], [], 0⟩

/-- Witness for C1: declaring `t` in `c1State`. -/
theorem claim_C1_label_declaration_witness :
    ∃ s2, Assembler.push 3 c1State (.op (.label "t")) none = some (.ok s2) ∧
      alookup s2.declaredLabels "t"
        = some (some (c1State.concreteLen +
            listMax ((c1State.undefinedLabels.filter (fun ul => ul.label = "t")).map
              (fun ul => (c1State.concreteLen - ul.position) / 256)))) ∧
      s2.undefinedLabels
        = c1State.undefinedLabels.filter (fun ul => ul.label ≠ "t") ∧
      s2.concreteLen = c1State.concreteLen :=
  claim_C1_label_declaration 2 c1State "t" rfl (by decide)

/-! ## Claim C5 -/

/-- A ready item that concretizes under the current tables. -/
def concOkB (s : Assembler) : RawOp → Bool
  | .op a =>
      match a.concretize s.declaredLabels with
      | some (.ok _) => true
      | _ => false
  | .raw _ => true

/-- A ready item blocked on a label or macro that is still undeclared. -/
def concBlockedB (s : Assembler) : RawOp → Bool
  | .op a =>
      match a.concretize s.declaredLabels with
      | some (.error (.contextIncomplete (.unknownLabel _))) => true
      | some (.error (.contextIncomplete (.unknownMacroName _))) => true
      | _ => false
  | .raw _ => false

/-- The concatenated encodings of the ready items that concretize. -/
def readyBytes (s : Assembler) : List RawOp → List Nat
  | [] => []
  | .op a :: rest =>
      (match a.concretize s.declaredLabels with
       | some (.ok cop) => cop.assemble
       | _ => []) ++ readyBytes s rest
  | .raw bs :: rest => bs ++ readyBytes s rest

theorem concList_ok (s : Assembler) :
    ∀ rops, (∀ r ∈ rops, concOkB s r = true) →
      Assembler.concretizeList s rops = some (.ok (readyBytes s rops)) := by
  intro rops
  induction rops with
  | nil => intro h; rfl
  | cons r rest ih =>
      intro h
      have hr := h r (by simp)
      have hrest := ih (fun x hx => h x (by simp [hx]))
      cases r with
      | raw bs => simp [Assembler.concretizeList, readyBytes, hrest]
      | op a =>
          cases hc : a.concretize s.declaredLabels with
          | none => simp [concOkB, hc] at hr
          | some res =>
              cases res with
              | ok cop => simp [Assembler.concretizeList, readyBytes, hc, hrest]
              | error e => simp [concOkB, hc] at hr

theorem concList_blocked (s : Assembler) :
    ∀ rops, (∀ r ∈ rops, concOkB s r = true ∨ concBlockedB s r = true) →
      (∃ r ∈ rops, concBlockedB s r = true) →
      ∃ e, Assembler.concretizeList s rops = some (.error e) := by
  intro rops
  induction rops with
  | nil =>
      rintro _ ⟨r, hr, _⟩
      simp at hr
  | cons r rest ih =>
      rintro hall hex
      cases hbr : concBlockedB s r with
      | true =>
          cases r with
          | raw bs => simp [concBlockedB] at hbr
          | op a =>
              simp only [concBlockedB] at hbr
              cases hc : a.concretize s.declaredLabels with
              | none => rw [hc] at hbr; simp at hbr
              | some res =>
                  rw [hc] at hbr
                  cases res with
                  | ok cop => simp at hbr
                  | error e =>
                      cases e with
                      | contextIncomplete src =>
                          cases src with
                          | unknownLabel n =>
                              exact ⟨.undeclaredLabels
                                  (s.undefinedLabels.map (fun l => l.label)),
                                by simp [Assembler.concretizeList, hc]⟩
                          | unknownMacroName n =>
                              exact ⟨.undeclaredInstrMacroName n,
                                by simp [Assembler.concretizeList, hc]⟩
                          | undefinedVariable n => simp at hbr
                      | expressionTooLarge e2 v => simp at hbr
                      | expressionNegative e2 v => simp at hbr
      | false =>
          have hok : concOkB s r = true := by
            rcases hall r (by simp) with h | h
            · exact h
            · rw [hbr] at h; exact absurd h (by simp)
          obtain ⟨rb, hrb, hrbB⟩ := hex
          have hrb2 : rb ∈ rest := by
            rcases List.mem_cons.mp hrb with rfl | hmem
            · rw [hbr] at hrbB; exact absurd hrbB (by simp)
            · exact hmem
          obtain ⟨e, he⟩ := ih (fun x hx => hall x (by simp [hx])) ⟨rb, hrb2, hrbB⟩
          cases r with
          | raw bs => exact ⟨e, by simp [Assembler.concretizeList, he]⟩
          | op a =>
              cases hc : a.concretize s.declaredLabels with
              | none => simp [concOkB, hc] at hok
              | some res =>
                  cases res with
                  | ok cop => exact ⟨e, by simp [Assembler.concretizeList, hc, he]⟩
                  | error e2 => simp [concOkB, hc] at hok

/-- C5 (amended): if every ready item concretizes under the current tables,
`take` returns their concatenated bytes and clears the buffer (the other
fields untouched); if concretization is blocked on a still-undeclared label
or macro — and every ready item either concretizes or is blocked that way,
ruling out the oversized/negative/variable panics — `take` returns the empty
byte vector without error and leaves the state unchanged. -/
theorem claim_C5_take_contract :
    (∀ s : Assembler, (∀ r ∈ s.ready, concOkB s r = true) →
      Assembler.take s = some (readyBytes s s.ready, { s with ready := [] })) ∧
    (∀ s : Assembler,
      (∀ r ∈ s.ready, concOkB s r = true ∨ concBlockedB s r = true) →
      (∃ r ∈ s.ready, concBlockedB s r = true) →
      Assembler.take s = some ([], s)) := by
  constructor
  · intro s h
    have hc := concList_ok s s.ready h
    simp [Assembler.take, Assembler.concretizeOps, hc]
  · intro s hall hex
    obtain ⟨e, he⟩ := concList_blocked s s.ready hall hex
    simp [Assembler.take, Assembler.concretizeOps, he]

/-- A state whose single ready op concretizes. -/
def w5ok : Assembler := ⟨[opGetPc], 1, [], [], [], [], 0⟩

/-- A state whose single ready op is blocked on the undeclared label `z`. -/
def w5blocked : Assembler := ⟨[push1WithLabel "z"], 2, [], [], [⟨"z", 0⟩], [], 0⟩

/-- Witness for C5 at concrete states. -/
theorem claim_C5_take_contract_witness :
    Assembler.take w5ok = some (readyBytes w5ok w5ok.ready, { w5ok with ready := [] }) ∧
    Assembler.take w5blocked = some ([], w5blocked) :=
  ⟨claim_C5_take_contract.1 w5ok (by decide),
   claim_C5_take_contract.2 w5blocked (by decide) (by decide)⟩

/-- A deferred sized push whose label later resolves out of range, followed
by a push blocked on the never-declared label `y`. -/
def c5Ops : List RawOp :=
  [.op (.op .Push1 (some (.plus (Imm.withLabel "x") (.terminal (.number 300))))),
   push1WithLabel "y", .op (.label "x")]

/-- C5 counterexample: in the state reached by `c5Ops`, a ready op (the push
of `y`) still references an undeclared label, yet `take` does not return the
empty batch: the earlier deferred push re-concretizes to an oversized value,
hitting the `unreachable!` arm of `concretize_ops` — a panic (`none`). -/
theorem claim_C5_counterexample :
    (resultState (runAsm 3 c5Ops)).map
        (fun s => (s.ready.any (fun r => concBlockedB s r), (Assembler.take s).isNone))
      = some (true, true) := by
  decide

end Etk
